import Mathlib

/-!
Verification of the LudoPals game engine.

Shallow embedding of the repository's behavioral source files:
- the shared rules engine (`ludoRules.js`): board constants, `getNextPosition`,
  `isValidMove`, `getPiecesCutByMove`, `executeMove`, `checkWinCondition`,
  `getValidMoves`, `getAnotherTurn`, `getNextPlayerTurn`;
- the AI move selector (`aiPlayer.js`): `getDistanceToFinish`,
  `isPieceInDanger`, `evaluateMove`, `selectAIMove`;
- the frontend room-state manager (`gameStateManager.js`):
  `validateGameState`, `handlePieceMove`;
- the backend socket handlers (`server.js`): `joinRoom`, `rollDice`,
  `movePiece`.

Modelling conventions: JS numbers holding board positions and dice values
become `Int` (home is the sentinel `-1`); thrown exceptions become
`Except String`; `Math.random()` draws become explicit rational parameters
(one stream index per draw site); wall-clock timestamps and the
`moveHistory` log are elided (no claim observes them); JS mutation of the
first array element found by `findIndex` becomes `updateFirst`.
In `server.js` the room's `players` array and `room.gameStateData.players`
are one and the same JS array object; the server-room record therefore
carries a single `players` list that both readers share.
-/

namespace Ludo

/-- Player colors, `PLAYER_COLORS = ['red', 'blue', 'green', 'yellow']`. -/
inductive Color where
  | red | blue | green | yellow
deriving DecidableEq, Repr

/-- Game phases as used by `gamePhase` / `gameState` strings in the source. -/
inductive Phase where
  | waiting | playing | finished | abandoned
deriving DecidableEq, Repr

/-- One token on the board (`initializeGamePieces` element shape). -/
structure Piece where
  id : String
  playerId : String
  playerColor : Color
  pieceNumber : Nat
  position : Int
  isSafe : Bool
deriving DecidableEq, Repr

/-- A participant in a room. `piecesHome`/`piecesFinished` are the
statistics updated by `executeMove`; `socketId` is the live connection. -/
structure Player where
  id : String
  uuid : String
  color : Color
  isHost : Bool
  isAI : Bool
  connected : Bool
  socketId : Option String
  piecesHome : Nat
  piecesFinished : Nat
deriving DecidableEq, Repr

/-- The stored pending roll (`lastDiceRoll`), timestamp elided. -/
structure DiceRoll where
  playerId : String
  value : Int
deriving DecidableEq, Repr

/-- The game-state object shared by the rules engine and the frontend
manager (`createInitialGameState` shape; `moveHistory` elided). -/
structure GameState where
  players : List Player
  pieces : List Piece
  currentTurn : Nat
  gamePhase : Phase
  winner : Option String
  lastDiceRoll : Option DiceRoll
deriving DecidableEq, Repr

/-- `GAME_CONSTANTS.BOARD_SIZE`. -/
def BOARD_SIZE : Int := 52
/-- `GAME_CONSTANTS.HOME_POSITION`. -/
def HOME_POSITION : Int := -1
/-- `GAME_CONSTANTS.FINISH_START`. -/
def FINISH_START : Int := 52
/-- `GAME_CONSTANTS.FINISH_END`. -/
def FINISH_END : Int := 57

/-- `PLAYER_START_POSITIONS` / `getStartPosition`. -/
def getStartPosition : Color → Int
  | .red => 0
  | .blue => 13
  | .green => 26
  | .yellow => 39

/-- `SAFE_POSITIONS`. -/
def SAFE_POSITIONS : List Int := [0, 8, 13, 21, 26, 34, 39, 47]

/-- `STAR_POSITIONS`. -/
def STAR_POSITIONS : List Int := [8, 21, 34, 47]

/-- `HOME_ENTRY_POSITIONS` (computed but unused by `getNextPosition`). -/
def HOME_ENTRY_POSITIONS : Color → Int
  | .red => 51
  | .blue => 12
  | .green => 25
  | .yellow => 38

/-- `isSafePosition(position)`. -/
def isSafePosition (position : Int) : Bool :=
  SAFE_POSITIONS.contains position

/-- `isStarPosition(position)`. -/
def isStarPosition (position : Int) : Bool :=
  STAR_POSITIONS.contains position

/-- `getNextPosition(currentPosition, steps, playerColor)`. The source
also binds `HOME_ENTRY_POSITIONS[playerColor]` but never reads it. -/
def getNextPosition (currentPosition : Int) (steps : Int) (playerColor : Color) : Int :=
  if currentPosition = HOME_POSITION then
    if steps = 6 then getStartPosition playerColor else HOME_POSITION
  else if currentPosition ≥ FINISH_START then
    let newPosition := currentPosition + steps
    if newPosition ≤ FINISH_END then newPosition else currentPosition
  else
    let startPos := getStartPosition playerColor
    let totalSteps :=
      if currentPosition ≥ startPos then currentPosition - startPos
      else (BOARD_SIZE - startPos) + currentPosition
    let newTotalSteps := totalSteps + steps
    if newTotalSteps ≥ BOARD_SIZE - 1 then
      FINISH_START + (newTotalSteps - (BOARD_SIZE - 1))
    else
      let newPosition := currentPosition + steps
      if newPosition ≥ BOARD_SIZE then newPosition - BOARD_SIZE else newPosition

/-- `isValidMove(piece, steps, gameState, playerColor)`. -/
def isValidMove (piece : Piece) (steps : Int) (gameState : GameState)
    (playerColor : Color) : Bool :=
  if piece.position = HOME_POSITION ∧ steps ≠ 6 then false
  else
    let newPosition := getNextPosition piece.position steps playerColor
    if newPosition = piece.position then false
    else if gameState.pieces.any fun p =>
        decide (p.position = newPosition ∧ p.playerColor = playerColor ∧ p.id ≠ piece.id) then
      false
    else true

/-- `getPiecesCutByMove(newPosition, movingPlayerColor, gameState)`. -/
def getPiecesCutByMove (newPosition : Int) (movingPlayerColor : Color)
    (gameState : GameState) : List Piece :=
  if isSafePosition newPosition then []
  else if newPosition ≥ FINISH_START then []
  else gameState.pieces.filter fun piece =>
    decide (piece.position = newPosition ∧ piece.playerColor ≠ movingPlayerColor)

/-- Replace the first element satisfying `pred` by its image under `f`;
this is the JS pattern `arr[arr.findIndex(pred)] = f(...)` guarded by
`findIndex !== -1`. -/
def updateFirst {α : Type} (l : List α) (pred : α → Bool) (f : α → α) : List α :=
  match l with
  | [] => []
  | x :: xs => if pred x then f x :: xs else x :: updateFirst xs pred f

/-- Result record of `executeMove`. -/
structure MoveResult where
  gameState : GameState
  cutPieces : List Piece
  movedPiece : Piece
deriving DecidableEq, Repr

/-- `executeMove(gameState, playerId, pieceId, steps)`; JS `throw`
becomes `Except.error`. The source mutates a deep copy: it sends each
cut piece home, moves the found piece, then recomputes the mover's
`piecesHome`/`piecesFinished` statistics from the updated pieces. -/
def executeMove (gameState : GameState) (playerId pieceId : String)
    (steps : Int) : Except String MoveResult :=
  match gameState.pieces.find? (fun p => p.id == pieceId) with
  | none => .error "Piece not found"
  | some piece =>
    match gameState.players.find? (fun p => p.id == playerId) with
    | none => .error "Player not found"
    | some player =>
      if ¬ isValidMove piece steps gameState player.color then
        .error "Invalid move"
      else
        let newPosition := getNextPosition piece.position steps player.color
        let cutPieces := getPiecesCutByMove newPosition player.color gameState
        let piecesAfterCuts := cutPieces.foldl
          (fun acc cutPiece => updateFirst acc (fun p => p.id == cutPiece.id)
            (fun p => { p with position := HOME_POSITION, isSafe := false }))
          gameState.pieces
        let newPieces := updateFirst piecesAfterCuts (fun p => p.id == pieceId)
          (fun p => { p with position := newPosition, isSafe := isSafePosition newPosition })
        let playerPieces := newPieces.filter (fun p => p.playerId == playerId)
        let newPlayers := updateFirst gameState.players (fun p => p.id == playerId)
          (fun pl => { pl with
            piecesHome := (playerPieces.filter (fun p => p.position == HOME_POSITION)).length,
            piecesFinished := (playerPieces.filter (fun p => p.position == FINISH_END)).length })
        let movedPiece : Piece :=
          { piece with position := newPosition, isSafe := isSafePosition newPosition }
        .ok { gameState := ({ gameState with pieces := newPieces, players := newPlayers }),
              cutPieces := cutPieces,
              movedPiece := movedPiece }

/-- `checkWinCondition(gameState, playerId)`. -/
def checkWinCondition (gameState : GameState) (playerId : String) : Bool :=
  (gameState.pieces.filter (fun p => p.playerId == playerId)).all
    (fun piece => piece.position == FINISH_END)

/-- A legal move as produced by `getValidMoves`. -/
structure Move where
  pieceId : String
  fromPosition : Int
  toPosition : Int
  willCutPieces : Bool
  cutPieces : List Piece
deriving DecidableEq, Repr

/-- `getValidMoves(gameState, playerId, diceValue)`. -/
def getValidMoves (gameState : GameState) (playerId : String)
    (diceValue : Int) : List Move :=
  match gameState.players.find? (fun p => p.id == playerId) with
  | none => []
  | some player =>
    (gameState.pieces.filter (fun p => p.playerId == playerId)).filterMap fun piece =>
      if isValidMove piece diceValue gameState player.color then
        let newPosition := getNextPosition piece.position diceValue player.color
        let cutPieces := getPiecesCutByMove newPosition player.color gameState
        some { pieceId := piece.id,
               fromPosition := piece.position,
               toPosition := newPosition,
               willCutPieces := cutPieces.length > 0,
               cutPieces := cutPieces }
      else none

/-- `getAnotherTurn(diceValue, cutPieces)`. -/
def getAnotherTurn (diceValue : Int) (cutPieces : List Piece) : Bool :=
  diceValue == 6 || cutPieces.length > 0

/-- The `connected` flag of `players[i]` (indices produced by the turn
logic are always in range; the default is unreachable). -/
def connectedAt (players : List Player) (i : Nat) : Bool :=
  ((players.get? i).map (fun p => p.connected)).getD false

/-- The bounded skip-disconnected `while` loop of `getNextPlayerTurn`:
`remaining` counts the attempts still allowed (`attempts < players.length`). -/
def skipLoop (players : List Player) : Nat → Nat → Nat
  | nextTurn, 0 => nextTurn
  | nextTurn, remaining + 1 =>
    if connectedAt players nextTurn then nextTurn
    else skipLoop players ((nextTurn + 1) % players.length) remaining

/-- `getNextPlayerTurn(currentTurn, players, skipDisconnected)`. -/
def getNextPlayerTurn (currentTurn : Nat) (players : List Player)
    (skipDisconnected : Bool := true) : Nat :=
  let nextTurn := (currentTurn + 1) % players.length
  if skipDisconnected then skipLoop players nextTurn players.length
  else nextTurn

/-- `initializeGamePieces(players)`. -/
def initializeGamePieces (players : List Player) : List Piece :=
  players.flatMap fun player =>
    ((List.range 4).map (fun i => i + 1)).map fun i =>
      { id := player.id ++ "_piece_" ++ toString i,
        playerId := player.id,
        playerColor := player.color,
        pieceNumber := i,
        position := HOME_POSITION,
        isSafe := false }

/-! AI move selector (`aiPlayer.js`). Scores are rationals so that the
`Math.random()` jitter can be an arbitrary rational draw; `rng i` is the
value of the `i`-th draw at the corresponding call site. -/

/-- `AI_DIFFICULTY`. -/
inductive Difficulty where
  | easy | medium | hard
deriving DecidableEq, Repr

/-- `GAME_CONSTANTS.MOVES_TO_WIN`. -/
def MOVES_TO_WIN : Int := 6

/-- The dice values `1..6` enumerated by the AI's danger/blocking loops. -/
def DICE_VALUES : List Int := [1, 2, 3, 4, 5, 6]

/-- `getDistanceToFinish(piece, playerColor)`. -/
def getDistanceToFinish (piece : Piece) (playerColor : Color) : Int :=
  if piece.position = HOME_POSITION then BOARD_SIZE + MOVES_TO_WIN
  else if piece.position ≥ FINISH_START then FINISH_END - piece.position
  else
    let startPos := getStartPosition playerColor
    let distanceOnBoard :=
      if piece.position ≥ startPos then BOARD_SIZE - (piece.position - startPos)
      else startPos - piece.position
    distanceOnBoard + MOVES_TO_WIN

/-- `isPieceInDanger(piece, gameState, playerColor)`. -/
def isPieceInDanger (piece : Piece) (gameState : GameState) (playerColor : Color) : Bool :=
  if piece.position = HOME_POSITION ∨ piece.position ≥ FINISH_START then false
  else if isSafePosition piece.position then false
  else
    (gameState.players.filter (fun p => decide (p.color ≠ playerColor))).any fun opponent =>
      (gameState.pieces.filter (fun p => p.playerColor == opponent.color)).any fun opponentPiece =>
        DICE_VALUES.any fun dice =>
          getNextPosition opponentPiece.position dice opponent.color == piece.position

/-- `evaluateMove(move, gameState, playerId, playerColor, difficulty)`; the
numeric literals are the `MOVE_PRIORITIES` table. `rand` is this call's
`Math.random()` draw (used by the easy and medium jitter branches). -/
def evaluateMove (move : Move) (gameState : GameState) (playerId : String)
    (playerColor : Color) (difficulty : Difficulty) (rand : ℚ) : ℚ :=
  match gameState.pieces.find? (fun p => p.id == move.pieceId) with
  | none => 50
  | some piece =>
    let tempPieces := updateFirst gameState.pieces (fun p => p.id == move.pieceId)
      (fun p => { p with position := move.toPosition })
    if checkWinCondition { gameState with pieces := tempPieces } playerId then
      1000
    else
      let score : ℚ := 50
      let score := if move.willCutPieces = true ∧ 0 < move.cutPieces.length then
          score + 800 + ((move.cutPieces.length : ℚ) - 1) * 100
        else score
      let score := if move.fromPosition = HOME_POSITION then score + 300 else score
      let score := if isSafePosition move.toPosition then
          let s := score + 600
          if isPieceInDanger piece gameState playerColor then s + 200 else s
        else score
      let distanceBefore := getDistanceToFinish { piece with position := move.fromPosition } playerColor
      let distanceAfter := getDistanceToFinish { piece with position := move.toPosition } playerColor
      let advancement := distanceBefore - distanceAfter
      let score := if 0 < advancement then
          let playerPieces := gameState.pieces.filter (fun p => p.playerColor == playerColor)
          let furthestBonus : ℚ :=
            if (playerPieces.map (fun p => getDistanceToFinish p playerColor)).min? = some distanceBefore
            then 400 else 0
          score + 100 + (advancement : ℚ) * 10 + furthestBonus
        else score
      let score := if isStarPosition move.toPosition then score + 50 else score
      match difficulty with
      | .easy => score + rand * 200 - 100
      | .hard =>
        let opponentPieces := gameState.pieces.filter (fun p => decide (p.playerColor ≠ playerColor))
        let score := opponentPieces.foldl (fun s opponentPiece =>
            if getDistanceToFinish opponentPiece opponentPiece.playerColor < 10 then
              DICE_VALUES.foldl (fun s2 dice =>
                if getNextPosition opponentPiece.position dice opponentPiece.playerColor = move.toPosition
                    ∧ ¬ isSafePosition move.toPosition = true then s2 + 200
                else s2) s
            else s) score
        let nearbyAllies := gameState.pieces.filter fun p =>
          decide (p.playerColor = playerColor ∧ p.id ≠ move.pieceId ∧
            |p.position - move.toPosition| ≤ 3)
        score + (nearbyAllies.length : ℚ) * 25
      | .medium => score + rand * 50 - 25

/-- Insert into a descending-by-score list, before the first strictly
smaller score (so earlier elements win ties). -/
def sortInsertDesc (x : Move × ℚ) : List (Move × ℚ) → List (Move × ℚ)
  | [] => [x]
  | y :: ys => if y.2 ≤ x.2 then x :: y :: ys else y :: sortInsertDesc x ys

/-- The stable descending sort `evaluatedMoves.sort((a, b) => b.score - a.score)`. -/
def sortByScoreDesc : List (Move × ℚ) → List (Move × ℚ)
  | [] => []
  | x :: xs => sortInsertDesc x (sortByScoreDesc xs)

/-- `selectAIMove(gameState, playerId, diceValue, difficulty)`; `.error`
models the thrown 'Player not found', `.ok none` the null return. Draws:
`rng i` for the evaluation of move `i`, `rng n` for the easy-tier 30%
suboptimal coin (`n` = number of moves), `rng (n+1)` for its index pick. -/
def selectAIMove (gameState : GameState) (playerId : String) (diceValue : Int)
    (difficulty : Difficulty) (rng : Nat → ℚ) : Except String (Option Move) :=
  match gameState.players.find? (fun p => p.id == playerId) with
  | none => .error "Player not found"
  | some player =>
    let validMoves := getValidMoves gameState playerId diceValue
    if validMoves.length = 0 then .ok none
    else if validMoves.length = 1 then .ok validMoves.head?
    else
      let evaluatedMoves := validMoves.enum.map fun im =>
        (im.2, evaluateMove im.2 gameState playerId player.color difficulty (rng im.1))
      let sorted := sortByScoreDesc evaluatedMoves
      if difficulty = .easy ∧ rng validMoves.length < 3 / 10 then
        let randomIndex :=
          (⌊rng (validMoves.length + 1) * ((min 3 evaluatedMoves.length : Nat) : ℚ)⌋).toNat
        .ok ((sorted.get? randomIndex).map Prod.fst)
      else
        .ok (sorted.head?.map Prod.fst)

/-! Frontend room-state manager (`gameStateManager.js`). -/

/-- `validateGameState(gameState)`: the list of error strings. Checks on
nullness and field types cannot fail in this typed model and are omitted;
the remaining checks are translated in source order. -/
def validateGameState (gameState : GameState) : List String :=
  (if gameState.players.length < 2 then ["Not enough players"] else []) ++
  (if gameState.players.length > 4 then ["Too many players"] else []) ++
  (if ¬ (gameState.players.map (fun p => p.color)).Nodup then
    ["Duplicate player colors detected"] else []) ++
  (if gameState.pieces.length ≠ gameState.players.length * 4 then
    ["Invalid number of pieces"] else []) ++
  (if gameState.currentTurn ≥ gameState.players.length then
    ["Invalid current turn index"] else []) ++
  (if gameState.gamePhase ∉ [Phase.waiting, Phase.playing, Phase.finished] then
    ["Invalid game phase"] else [])

/-- Result record of `handlePieceMove`. -/
structure PieceMoveResult where
  gameState : GameState
  moveResult : MoveResult
  getsAnotherTurn : Bool
  gameFinished : Bool
deriving DecidableEq, Repr

/-- `handlePieceMove(gameState, playerId, pieceId, diceValue)`: validates,
executes the move, applies the win transition, and advances the turn
unless an extra turn is granted or the game left the playing phase. -/
def handlePieceMove (gameState : GameState) (playerId pieceId : String)
    (diceValue : Int) : Except String PieceMoveResult :=
  if validateGameState gameState ≠ [] then .error "Invalid game state"
  else
    match gameState.players.get? gameState.currentTurn with
    | none => .error "Not your turn"
    | some currentPlayer =>
      if currentPlayer.id ≠ playerId then .error "Not your turn"
      else if gameState.gamePhase ≠ .playing then .error "Game is not in playing state"
      else if (match gameState.lastDiceRoll with
          | none => true
          | some roll => roll.playerId != playerId || roll.value != diceValue) then
        .error "Invalid dice value or dice not rolled"
      else
        match executeMove gameState playerId pieceId diceValue with
        | .error e => .error e
        | .ok moveResult =>
          let s1 := moveResult.gameState
          let s2 := if checkWinCondition s1 playerId then
              { s1 with gamePhase := .finished, winner := some playerId }
            else s1
          let getsAnotherTurn := getAnotherTurn diceValue moveResult.cutPieces
          let s3 := if getsAnotherTurn = false ∧ s2.gamePhase = .playing then
              { s2 with currentTurn := getNextPlayerTurn s2.currentTurn s2.players true }
            else s2
          let s4 := { s3 with lastDiceRoll := none }
          .ok { gameState := s4, moveResult := moveResult,
                getsAnotherTurn := getsAnotherTurn,
                gameFinished := s4.gamePhase == .finished }

/-! Backend socket handlers (`server.js`). A server room's
`gameStateData.players` is the same JS array as `room.players`, so the
record stores the list once and both readers use it. -/

/-- The `room.gameStateData` object, minus the aliased `players` field. -/
structure ServerGameStateData where
  gamePhase : Phase
  pieces : List Piece
  currentTurn : Nat
  winner : Option String
  lastDiceRoll : Option DiceRoll
deriving DecidableEq, Repr

/-- A server room (`gameRooms` map entry). `gameState` is the room-level
phase string kept for backward compatibility. -/
structure ServerRoom where
  gameState : Phase
  maxPlayers : Nat
  players : List Player
  gameStateData : Option ServerGameStateData
deriving DecidableEq, Repr

/-- The `joinRoom` socket handler. Returns the room as left by the
handler together with the callback result; the backward-compatibility
initialization of `gameStateData` persists even when the join is later
rejected, exactly as the JS mutation does. New players get the first
unused color (falling back to red) and a default-initialized stats pair. -/
def joinRoom (room : ServerRoom) (playerId socketId : String) :
    ServerRoom × Except String Unit :=
  let room := match room.gameStateData with
    | some _ => room
    | none =>
      let g : ServerGameStateData :=
        { gamePhase := room.gameState, pieces := initializeGamePieces room.players,
          currentTurn := 0, winner := none, lastDiceRoll := none }
      { room with gameStateData := some g }
  match room.players.find? (fun p => p.id == playerId || p.uuid == playerId) with
  | some player =>
    if player.connected && (match player.socketId with
        | some s => s != socketId
        | none => false) then
      (room, .error "Player already connected from another session")
    else
      let reattached := updateFirst room.players
        (fun p => p.id == playerId || p.uuid == playerId)
        (fun p => { p with connected := true, socketId := some socketId })
      ({ room with players := reattached }, .ok ())
  | none =>
    if room.gameState ≠ .waiting then (room, .error "Game already in progress")
    else if room.players.length ≥ room.maxPlayers then (room, .error "Room is full")
    else if (room.players.filter (fun p => !p.isAI)).length ≥ room.maxPlayers then
      (room, .error "Maximum human players reached")
    else
      let availableColor := (([Color.red, .blue, .green, .yellow].filter
        (fun c => ¬ room.players.any (fun p => p.color == c))).head?).getD .red
      let newPlayer : Player :=
        { id := playerId, uuid := playerId, color := availableColor,
          isHost := false, isAI := false, connected := true,
          socketId := some socketId, piecesHome := 4, piecesFinished := 0 }
      let newPlayers := room.players ++ [newPlayer]
      let newGsd := room.gameStateData.map
        (fun g => { g with pieces := initializeGamePieces newPlayers })
      ({ room with players := newPlayers, gameStateData := newGsd }, .ok ())

/-- The `rollDice` socket handler; `randomDice` is the sampled
`Math.floor(Math.random() * 6) + 1`. -/
def serverRollDice (room : ServerRoom) (playerId : String) (randomDice : Int) :
    Except String (ServerRoom × Int) :=
  match room.gameStateData with
  | none => .error "Game is not in playing state"
  | some gsd =>
    if room.gameState ≠ .playing ∨ gsd.gamePhase ≠ .playing then
      .error "Game is not in playing state"
    else
      match room.players.get? gsd.currentTurn with
      | none => .error "Not your turn"
      | some currentPlayer =>
        if currentPlayer.id ≠ playerId ∧ currentPlayer.uuid ≠ playerId then
          .error "Not your turn"
        else if (match gsd.lastDiceRoll with
            | some roll => roll.playerId == playerId
            | none => false) then
          .error "You have already rolled the dice this turn"
        else
          let gsd2 := { gsd with lastDiceRoll := some { playerId := playerId, value := randomDice } }
          .ok ({ room with gameStateData := some gsd2 }, randomDice)

/-- The start-position table inlined by the server's `movePiece` handler. -/
def serverStartPosition : Color → Int
  | .red => 0
  | .blue => 13
  | .green => 26
  | .yellow => 39

/-- The `movePiece` socket handler with its self-described simplified
position logic: home needs a 6 and goes to the start cell; any other
piece advances by the dice value and wraps at 52; the dice roll is
cleared and the turn passes unless a 6 was rolled. -/
def serverMovePiece (room : ServerRoom) (playerId pieceId : String)
    (diceValue : Int) : Except String (ServerRoom × Int) :=
  match room.gameStateData with
  | none => .error "Game is not in playing state"
  | some gsd =>
    if room.gameState ≠ .playing ∨ gsd.gamePhase ≠ .playing then
      .error "Game is not in playing state"
    else
      match room.players.get? gsd.currentTurn with
      | none => .error "Not your turn"
      | some currentPlayer =>
        if currentPlayer.id ≠ playerId ∧ currentPlayer.uuid ≠ playerId then
          .error "Not your turn"
        else
          match gsd.lastDiceRoll with
          | none => .error "You must roll the dice first"
          | some roll =>
            if roll.playerId ≠ playerId then .error "You must roll the dice first"
            else if roll.value ≠ diceValue then .error "Invalid dice value"
            else
              match gsd.pieces.find? (fun p => p.id == pieceId) with
              | none => .error "Piece not found"
              | some piece =>
                if piece.playerId ≠ playerId then .error "This piece does not belong to you"
                else if piece.position = HOME_POSITION ∧ diceValue ≠ 6 then
                  .error "Need a 6 to move piece out of home"
                else
                  let newPosition :=
                    if piece.position = HOME_POSITION then
                      serverStartPosition currentPlayer.color
                    else
                      let np := piece.position + diceValue
                      if np ≥ 52 then np - 52 else np
                  let newIsSafe := [0, 8, 13, 21, 26, 34, 39, 47].contains newPosition
                  let newPieces := updateFirst gsd.pieces (fun p => p.id == pieceId)
                    (fun p => { p with position := newPosition, isSafe := newIsSafe })
                  let newTurn := if diceValue ≠ 6 then
                      (gsd.currentTurn + 1) % room.players.length
                    else gsd.currentTurn
                  let gsd2 := { gsd with pieces := newPieces, lastDiceRoll := none, currentTurn := newTurn }
                  .ok ({ room with gameStateData := some gsd2 }, newPosition)

/-- View of a server room as a rules-engine game state (the data the
handlers pass to the shared logic: the aliased players list plus the
stored `gameStateData` fields). -/
def ServerRoom.toGameState (room : ServerRoom) (gsd : ServerGameStateData) : GameState :=
  { players := room.players, pieces := gsd.pieces, currentTurn := gsd.currentTurn,
    gamePhase := gsd.gamePhase, winner := gsd.winner, lastDiceRoll := gsd.lastDiceRoll }

/-! Supporting lemmas about the list-surgery helper. -/

theorem updateFirst_length {α : Type} (l : List α) (pred : α → Bool) (f : α → α) :
    (updateFirst l pred f).length = l.length := by
  induction l with
  | nil => rfl
  | cons a as ih =>
    by_cases h : pred a = true
    · simp [updateFirst, h]
    · simp [updateFirst, h, ih]

theorem updateFirst_get?_of_pred_false {α : Type} (l : List α) (pred : α → Bool)
    (f : α → α) (i : Nat) (x : α) (hx : l.get? i = some x) (hpred : pred x = false) :
    (updateFirst l pred f).get? i = some x := by
  induction l generalizing i with
  | nil => simp at hx
  | cons a as ih =>
    cases i with
    | zero =>
      simp only [List.get?] at hx
      cases hx
      simp [updateFirst, hpred]
    | succ j =>
      simp only [List.get?] at hx
      by_cases h : pred a = true
      · simp only [updateFirst, h, if_true, List.get?]
        exact hx
      · simp only [updateFirst, h, if_false, Bool.false_eq_true, List.get?]
        exact ih j hx

theorem updateFirst_mem {α : Type} (l : List α) (pred : α → Bool) (f : α → α)
    (x : α) (hx : x ∈ updateFirst l pred f) :
    x ∈ l ∨ ∃ y ∈ l, pred y = true ∧ x = f y := by
  induction l with
  | nil => simp [updateFirst] at hx
  | cons a as ih =>
    by_cases h : pred a = true
    · simp only [updateFirst, h, if_true] at hx
      rcases List.mem_cons.mp hx with hx | hx
      · exact Or.inr ⟨a, List.mem_cons_self a as, h, hx⟩
      · exact Or.inl (List.mem_cons_of_mem a hx)
    · simp only [updateFirst, h, if_false, Bool.false_eq_true] at hx
      rcases List.mem_cons.mp hx with hx | hx
      · exact Or.inl (hx ▸ List.mem_cons_self a as)
      · rcases ih hx with h1 | ⟨y, hy, hpy, hxy⟩
        · exact Or.inl (List.mem_cons_of_mem a h1)
        · exact Or.inr ⟨y, List.mem_cons_of_mem a hy, hpy, hxy⟩

theorem updateFirst_mem_of_find? {α : Type} (l : List α) (pred : α → Bool)
    (f : α → α) (x : α) (hx : l.find? pred = some x) :
    f x ∈ updateFirst l pred f := by
  induction l with
  | nil => simp at hx
  | cons a as ih =>
    by_cases h : pred a = true
    · rw [List.find?_cons_of_pos _ h] at hx
      cases hx
      simp [updateFirst, h]
    · rw [List.find?_cons_of_neg _ (by simp [h])] at hx
      simp only [updateFirst, h, if_false, Bool.false_eq_true]
      exact List.mem_cons_of_mem a (ih hx)

/-- All elements that a repeated send-home fold can produce are original
pieces or homed copies of original pieces. -/
theorem cutFold_mem (cuts : List Piece) (l : List Piece)
    (x : Piece)
    (hx : x ∈ cuts.foldl
      (fun acc cutPiece => updateFirst acc (fun p => p.id == cutPiece.id)
        (fun p => { p with position := HOME_POSITION, isSafe := false })) l) :
    x ∈ l ∨ ∃ y ∈ l, x = { y with position := HOME_POSITION, isSafe := false } := by
  induction cuts generalizing l with
  | nil => exact Or.inl hx
  | cons c cs ih =>
    simp only [List.foldl_cons] at hx
    rcases ih _ hx with h1 | ⟨y, hy, hxy⟩
    · rcases updateFirst_mem _ _ _ _ h1 with h2 | ⟨y, hy, _, hxy⟩
      · exact Or.inl h2
      · exact Or.inr ⟨y, hy, hxy⟩
    · rcases updateFirst_mem _ _ _ _ hy with h2 | ⟨z, hz, _, hyz⟩
      · exact Or.inr ⟨y, h2, hxy⟩
      · refine Or.inr ⟨z, hz, ?_⟩
        rw [hxy, hyz]

/-! Concrete example states used by the per-claim witnesses and
counterexamples. -/

/-- A connected human player for example states. -/
def mkPlayer (i : String) (c : Color) : Player :=
  { id := i, uuid := i, color := c, isHost := false, isAI := false,
    connected := true, socketId := none, piecesHome := 4, piecesFinished := 0 }

/-- A piece for example states. -/
def mkPiece (i pid : String) (c : Color) (pos : Int) : Piece :=
  { id := i, playerId := pid, playerColor := c, pieceNumber := 1,
    position := pos, isSafe := false }

/-- Server game-state data for claim C1's failing input: red to move with
a stored roll of 6, one red piece 50 steps along and another on cell 4. -/
def C1gsd : ServerGameStateData :=
  { gamePhase := .playing,
    pieces := [mkPiece "a1" "A" .red 50, mkPiece "a2" "A" .red 4],
    currentTurn := 0, winner := none,
    lastDiceRoll := some { playerId := "A", value := 6 } }

/-- The room for claim C1's failing input. -/
def C1room : ServerRoom :=
  { gameState := .playing, maxPlayers := 4,
    players := [mkPlayer "A" .red, mkPlayer "B" .blue],
    gameStateData := some C1gsd }

/-- C1: the server's movePiece handler is claimed to accept only moves in
the rules engine's `legalMoves`, redirecting entry-crossing path pieces
into the home stretch and rejecting same-color-occupied destinations. In
fact the handler's simplified logic accepts the red piece on cell 50 with
a roll of 6 and wraps it around the shared path to cell 4 — a cell held
by another red piece — while the rules engine's only legal move for that
piece goes to home-stretch cell 57 and no legal move targets cell 4. -/
theorem serverMovePiece_bypasses_rules :
    (Except.toOption (serverMovePiece C1room "A" "a1" 6)).map Prod.snd = some 4 ∧
    (∃ q ∈ C1gsd.pieces, q.id ≠ "a1" ∧ q.playerColor = .red ∧ q.position = 4) ∧
    (∀ m ∈ getValidMoves (C1room.toGameState C1gsd) "A" 6,
      m.pieceId = "a1" → m.toPosition = 57) ∧
    (∀ m ∈ getValidMoves (C1room.toGameState C1gsd) "A" 6,
      ¬ (m.pieceId = "a1" ∧ m.toPosition = 4)) := by
  refine ⟨by decide, ⟨mkPiece "a2" "A" .red 4, by decide, by decide, rfl, rfl⟩, ?_, ?_⟩ <;> decide

/-- Game state for claim C10's witness: one player owning one piece. -/
def C10gs : GameState :=
  { players := [mkPlayer "A" .red],
    pieces := [mkPiece "a1" "A" .red 0],
    currentTurn := 0, gamePhase := .playing, winner := none, lastDiceRoll := none }

/-- C10: `checkWinCondition` is vacuously true for any identifier owning
no pieces in the state, present in the room or not, because the
all-pieces-at-terminal test quantifies over an empty piece list. -/
theorem checkWinCondition_vacuous (gameState : GameState) (playerId : String)
    (h : gameState.pieces.filter (fun p => p.playerId == playerId) = []) :
    checkWinCondition gameState playerId = true := by
  unfold checkWinCondition
  rw [h]
  rfl

/-- Witness for C10: the identifier "ghost" names no player of `C10gs`,
yet `checkWinCondition` reports it as a winner. -/
theorem checkWinCondition_vacuous_witness :
    C10gs.pieces.filter (fun p => p.playerId == "ghost") = [] ∧
    checkWinCondition C10gs "ghost" = true :=
  ⟨by decide, checkWinCondition_vacuous C10gs "ghost" (by decide)⟩

/-! Elimination lemmas exposing the shape of successful moves. -/

instance {ε α : Type} [DecidableEq ε] [DecidableEq α] : DecidableEq (Except ε α) := fun a b =>
  match a, b with
  | .error e, .error f =>
    if h : e = f then isTrue (by rw [h]) else isFalse (by intro hh; injection hh; exact h ‹_›)
  | .ok x, .ok y =>
    if h : x = y then isTrue (by rw [h]) else isFalse (by intro hh; injection hh; exact h ‹_›)
  | .error _, .ok _ => isFalse (by intro hh; exact Except.noConfusion hh)
  | .ok _, .error _ => isFalse (by intro hh; exact Except.noConfusion hh)

/-- The relocation `executeMove` applies to the moved piece, named for
use in lemma statements (definitionally the inline update in the source
translation). -/
def movePieceUpdate (newPosition : Int) (p : Piece) : Piece :=
  { p with position := newPosition, isSafe := isSafePosition newPosition }

theorem executeMove_ok_elim (gs : GameState) (playerId pieceId : String) (steps : Int)
    (player : Player) (piece : Piece) (res : MoveResult)
    (hpc : gs.pieces.find? (fun p => p.id == pieceId) = some piece)
    (hpl : gs.players.find? (fun p => p.id == playerId) = some player)
    (hok : executeMove gs playerId pieceId steps = .ok res) :
    isValidMove piece steps gs player.color = true ∧
    res.cutPieces = getPiecesCutByMove (getNextPosition piece.position steps player.color)
      player.color gs ∧
    res.gameState.gamePhase = gs.gamePhase ∧
    res.gameState.currentTurn = gs.currentTurn ∧
    res.gameState.pieces =
      updateFirst
        (res.cutPieces.foldl (fun acc cutPiece => updateFirst acc (fun p => p.id == cutPiece.id)
          (fun p => { p with position := HOME_POSITION, isSafe := false })) gs.pieces)
        (fun p => p.id == pieceId)
        (movePieceUpdate (getNextPosition piece.position steps player.color)) := by
  unfold executeMove at hok
  rw [hpc, hpl] at hok
  split at hok
  · exact absurd hok (by simp)
  · rename_i piece2 hpiece2
    injection hpiece2 with h2
    subst h2
    split at hok
    · exact absurd hok (by simp)
    · rename_i player2 hplayer2
      injection hplayer2 with h3
      subst h3
      split at hok
      · exact absurd hok (by simp)
      · rename_i hvalid
        injection hok with hok
        subst hok
        exact ⟨by simpa using hvalid, rfl, rfl, rfl, rfl⟩

theorem checkWinCondition_eq_of_pieces_eq (s t : GameState) (playerId : String)
    (h : s.pieces = t.pieces) : checkWinCondition s playerId = checkWinCondition t playerId := by
  unfold checkWinCondition
  rw [h]

theorem handlePieceMove_ok_elim (gs : GameState) (playerId pieceId : String)
    (diceValue : Int) (r : PieceMoveResult)
    (hok : handlePieceMove gs playerId pieceId diceValue = .ok r) :
    ∃ mr, executeMove gs playerId pieceId diceValue = .ok mr ∧
      gs.gamePhase = .playing ∧
      r = (let s1 := mr.gameState
           let s2 := if checkWinCondition s1 playerId then { s1 with gamePhase := Phase.finished, winner := some playerId } else s1
           let s3 := if getAnotherTurn diceValue mr.cutPieces = false ∧ s2.gamePhase = Phase.playing then { s2 with currentTurn := getNextPlayerTurn s2.currentTurn s2.players true } else s2
           let s4 := { s3 with lastDiceRoll := none }
           { gameState := s4, moveResult := mr, getsAnotherTurn := getAnotherTurn diceValue mr.cutPieces, gameFinished := s4.gamePhase == Phase.finished }) := by
  unfold handlePieceMove at hok
  split at hok
  · exact absurd hok (by simp)
  · split at hok
    · exact absurd hok (by simp)
    · rename_i currentPlayer hcp
      split at hok
      · exact absurd hok (by simp)
      · split at hok
        · exact absurd hok (by simp)
        · split at hok
          · exact absurd hok (by simp)
          · rename_i hphase _
            split at hok
            · exact absurd hok (by simp)
            · rename_i mr hmr
              injection hok with hok
              exact ⟨mr, hmr, not_ne_iff.mp hphase, hok.symm⟩

/-- The pure half of C5, shared with the main theorem: a safe or
finish-area destination yields an empty capture list. -/
theorem getPiecesCutByMove_safe_eq_nil (newPosition : Int) (movingPlayerColor : Color)
    (gs : GameState)
    (h : isSafePosition newPosition = true ∨ FINISH_START ≤ newPosition) :
    getPiecesCutByMove newPosition movingPlayerColor gs = [] := by
  unfold getPiecesCutByMove
  split_ifs with h1 h2
  · rfl
  · rfl
  · rcases h with h | h
    · exact absurd h (by simpa using h1)
    · exact absurd h (by simpa using h2)

/-- C5: a move whose destination is a declared safe cell or a
finish-area cell captures nothing: `getPiecesCutByMove` returns the
empty list there, and a successful `executeMove` onto such a destination
reports no cut pieces and leaves every piece other than the moved one
exactly where it was, so an opposing occupant of a safe cell remains. -/
theorem safe_destination_captures_nothing :
    (∀ (newPosition : Int) (movingPlayerColor : Color) (gs : GameState),
      (isSafePosition newPosition = true ∨ FINISH_START ≤ newPosition) →
      getPiecesCutByMove newPosition movingPlayerColor gs = []) ∧
    (∀ (gs : GameState) (playerId pieceId : String) (steps : Int)
       (player : Player) (piece : Piece) (res : MoveResult),
      gs.players.find? (fun p => p.id == playerId) = some player →
      gs.pieces.find? (fun p => p.id == pieceId) = some piece →
      (isSafePosition (getNextPosition piece.position steps player.color) = true ∨
        FINISH_START ≤ getNextPosition piece.position steps player.color) →
      executeMove gs playerId pieceId steps = .ok res →
      res.cutPieces = [] ∧
      ∀ (i : Nat) (q : Piece), gs.pieces.get? i = some q → q.id ≠ pieceId →
        res.gameState.pieces.get? i = some q) := by
  refine ⟨getPiecesCutByMove_safe_eq_nil, ?_⟩
  intro gs playerId pieceId steps player piece res hpl hpc hsafe hok
  obtain ⟨_, hcut, _, _, hpieces⟩ := executeMove_ok_elim gs playerId pieceId steps
    player piece res hpc hpl hok
  have hnil : res.cutPieces = [] := by
    rw [hcut]
    exact getPiecesCutByMove_safe_eq_nil _ _ _ hsafe
  refine ⟨hnil, ?_⟩
  intro i q hq hid
  rw [hpieces, hnil, List.foldl_nil]
  exact updateFirst_get?_of_pred_false _ _ _ i q hq (by simpa using hid)

/-- Game state for C5's witness: a red piece six steps short of safe
star cell 8, which is occupied by an opposing blue piece. -/
def C5gs : GameState :=
  { players := [mkPlayer "A" .red, mkPlayer "B" .blue],
    pieces := [mkPiece "a1" "A" .red 2, mkPiece "b1" "B" .blue 8],
    currentTurn := 0, gamePhase := .playing, winner := none, lastDiceRoll := none }

/-- The result of C5's witness move (computable extraction). -/
def C5res : MoveResult :=
  match executeMove C5gs "A" "a1" 6 with
  | .ok res => res
  | .error _ => { gameState := C5gs, cutPieces := [], movedPiece := mkPiece "a1" "A" .red 2 }

/-- Witness for C5: red moves onto safe cell 8 occupied by blue; the
move succeeds, captures nothing, and the blue piece stays on cell 8. -/
theorem safe_destination_captures_nothing_witness :
    executeMove C5gs "A" "a1" 6 = .ok C5res ∧
    C5res.cutPieces = [] ∧
    C5res.gameState.pieces.get? 1 = some (mkPiece "b1" "B" .blue 8) := by
  have h := (safe_destination_captures_nothing).2 C5gs "A" "a1" 6
    (mkPlayer "A" .red) (mkPiece "a1" "A" .red 2) C5res
    (by decide) (by decide) (by decide) (by decide)
  exact ⟨by decide, h.1, h.2 1 (mkPiece "b1" "B" .blue 8) (by decide) (by decide)⟩

/-- C3: `getAnotherTurn` is true exactly for a roll of 6 or a non-empty
capture list; and after a successful `handlePieceMove` that leaves the
game in the playing phase, the turn index is unchanged when an extra
turn is granted and otherwise advances by `getNextPlayerTurn`. -/
theorem getAnotherTurn_iff_turn_advance :
    (∀ (diceValue : Int) (cutPieces : List Piece),
      getAnotherTurn diceValue cutPieces = true ↔ (diceValue = 6 ∨ cutPieces ≠ [])) ∧
    (∀ (gs : GameState) (playerId pieceId : String) (diceValue : Int) (r : PieceMoveResult),
      handlePieceMove gs playerId pieceId diceValue = .ok r →
      r.gameState.gamePhase = .playing →
      r.gameState.currentTurn =
        (if getAnotherTurn diceValue r.moveResult.cutPieces = true then gs.currentTurn
         else getNextPlayerTurn gs.currentTurn r.gameState.players true)) := by
  constructor
  · intro diceValue cutPieces
    unfold getAnotherTurn
    rcases cutPieces with _ | ⟨c, cs⟩ <;>
      simp [List.length_pos, beq_iff_eq]
  · intro gs playerId pieceId diceValue r hok hphase
    obtain ⟨mr, hmr, hplay, hr⟩ := handlePieceMove_ok_elim gs playerId pieceId diceValue r hok
    have hmeta : mr.gameState.gamePhase = gs.gamePhase ∧ mr.gameState.currentTurn = gs.currentTurn := by
      unfold executeMove at hmr
      split at hmr
      · exact absurd hmr (by simp)
      · split at hmr
        · exact absurd hmr (by simp)
        · split at hmr
          · exact absurd hmr (by simp)
          · injection hmr with hmr
            subst hmr
            exact ⟨rfl, rfl⟩
    subst hr
    by_cases hwin : checkWinCondition mr.gameState playerId = true
    · -- the win branch sets the phase to finished, so the turn logic is
      -- skipped and the remaining-playing hypothesis is contradictory
      exfalso
      simp [hwin] at hphase
    · by_cases hgat : getAnotherTurn diceValue mr.cutPieces = false
      · simp only [hwin, if_false, Bool.false_eq_true, hgat]
        simp only [hmeta.1, hplay, and_true, if_true, hmeta.2]
      · have hgat2 : getAnotherTurn diceValue mr.cutPieces = true := by
          revert hgat; cases getAnotherTurn diceValue mr.cutPieces <;> simp
        simp [hwin, hgat2, hmeta.2]

/-- Game state for C2's and C3's witnesses is built from explicit pieces. -/
def C3gs : GameState :=
  { players := [mkPlayer "A" .red, mkPlayer "B" .blue],
    pieces := [mkPiece "a1" "A" .red 5, mkPiece "a2" "A" .red (-1),
               mkPiece "a3" "A" .red (-1), mkPiece "a4" "A" .red (-1),
               mkPiece "b1" "B" .blue (-1), mkPiece "b2" "B" .blue (-1),
               mkPiece "b3" "B" .blue (-1), mkPiece "b4" "B" .blue (-1)],
    currentTurn := 0, gamePhase := .playing, winner := none,
    lastDiceRoll := some { playerId := "A", value := 3 } }

/-- The result of C3's witness move (computable extraction). -/
def C3r : PieceMoveResult :=
  match handlePieceMove C3gs "A" "a1" 3 with
  | .ok r => r
  | .error _ =>
    { gameState := C3gs,
      moveResult := { gameState := C3gs, cutPieces := [], movedPiece := mkPiece "a1" "A" .red 5 },
      getsAnotherTurn := false, gameFinished := false }

/-- Witness for C3: a non-6, non-capturing move grants no extra turn and
passes the turn to the next player. -/
theorem getAnotherTurn_iff_turn_advance_witness :
    (getAnotherTurn 3 [] = true ↔ ((3 : Int) = 6 ∨ ([] : List Piece) ≠ [])) ∧
    handlePieceMove C3gs "A" "a1" 3 = .ok C3r ∧
    C3r.gameState.currentTurn =
      (if getAnotherTurn 3 C3r.moveResult.cutPieces = true then C3gs.currentTurn
       else getNextPlayerTurn C3gs.currentTurn C3r.gameState.players true) :=
  ⟨(getAnotherTurn_iff_turn_advance).1 3 [],
   by rfl,
   (getAnotherTurn_iff_turn_advance).2 C3gs "A" "a1" 3 C3r (by rfl) (by rfl)⟩

/-- Game state for C2's witness. The pieces-per-player accounting in
`validateGameState` only constrains the total count, so a state in which
player A owns a single piece one step short of the terminal cell is
accepted and lets the win transition fire (with four pieces the terminal
cell would block its own fourth arrival). -/
def C2gs : GameState :=
  { players := [mkPlayer "A" .red, mkPlayer "B" .blue],
    pieces := [mkPiece "a1" "A" .red 56, mkPiece "b1" "B" .blue (-1),
               mkPiece "b2" "B" .blue (-1), mkPiece "b3" "B" .blue (-1),
               mkPiece "b4" "B" .blue (-1), mkPiece "b5" "B" .blue (-1),
               mkPiece "b6" "B" .blue (-1), mkPiece "b7" "B" .blue (-1)],
    currentTurn := 0, gamePhase := .playing, winner := none,
    lastDiceRoll := some { playerId := "A", value := 1 } }

/-- The result of C2's witness move (computable extraction). -/
def C2r : PieceMoveResult :=
  match handlePieceMove C2gs "A" "a1" 1 with
  | .ok r => r
  | .error _ =>
    { gameState := C2gs,
      moveResult := { gameState := C2gs, cutPieces := [], movedPiece := mkPiece "a1" "A" .red 56 },
      getsAnotherTurn := false, gameFinished := false }

/-- A finished server room for C2's witness of the freeze behavior. -/
def C2room : ServerRoom :=
  { gameState := .playing, maxPlayers := 4,
    players := [mkPlayer "A" .red, mkPlayer "B" .blue],
    gameStateData := some { gamePhase := .finished, pieces := [], currentTurn := 0,
                            winner := some "A", lastDiceRoll := none } }

/-- C2: a successful `handlePieceMove` after which the mover satisfies
`checkWinCondition` leaves the game in the finished phase with that
player recorded as winner; and once a room's stored phase is finished,
the server rejects every `rollDice` and `movePiece` intent for it. -/
theorem win_transitions_to_finished_and_freezes :
    (∀ (gs : GameState) (playerId pieceId : String) (diceValue : Int) (r : PieceMoveResult),
      handlePieceMove gs playerId pieceId diceValue = .ok r →
      checkWinCondition r.gameState playerId = true →
      r.gameState.gamePhase = .finished ∧ r.gameState.winner = some playerId) ∧
    (∀ (room : ServerRoom) (gsd : ServerGameStateData) (playerId pieceId : String)
       (randomDice diceValue : Int),
      room.gameStateData = some gsd → gsd.gamePhase = .finished →
      (∃ e, serverRollDice room playerId randomDice = .error e) ∧
      (∃ e, serverMovePiece room playerId pieceId diceValue = .error e)) := by
  constructor
  · intro gs playerId pieceId diceValue r hok hwinr
    obtain ⟨mr, _, _, hr⟩ := handlePieceMove_ok_elim gs playerId pieceId diceValue r hok
    subst hr
    by_cases hwin : checkWinCondition mr.gameState playerId = true
    · constructor <;>
        · simp only [hwin, if_true]
          split <;> rfl
    · -- the non-win branch leaves the pieces of the move result intact,
      -- contradicting the hypothesis that the result state is winning
      exfalso
      apply hwin
      rw [← hwinr]
      apply checkWinCondition_eq_of_pieces_eq
      simp only [hwin, if_false, Bool.false_eq_true]
      split <;> rfl
  · intro room gsd playerId pieceId randomDice diceValue hgsd hfin
    constructor
    · refine ⟨"Game is not in playing state", ?_⟩
      unfold serverRollDice
      rw [hgsd]
      dsimp only
      rw [if_pos (Or.inr (show gsd.gamePhase ≠ Phase.playing by
        rw [hfin]; exact fun h => Phase.noConfusion h))]
    · refine ⟨"Game is not in playing state", ?_⟩
      unfold serverMovePiece
      rw [hgsd]
      dsimp only
      rw [if_pos (Or.inr (show gsd.gamePhase ≠ Phase.playing by
        rw [hfin]; exact fun h => Phase.noConfusion h))]

/-- Witness for C2: the winning move flips the phase to finished with
winner A, and the finished room rejects both intents. -/
theorem win_transitions_to_finished_and_freezes_witness :
    (handlePieceMove C2gs "A" "a1" 1 = .ok C2r ∧
      checkWinCondition C2r.gameState "A" = true ∧
      C2r.gameState.gamePhase = .finished ∧ C2r.gameState.winner = some "A") ∧
    ((∃ e, serverRollDice C2room "A" 4 = .error e) ∧
      (∃ e, serverMovePiece C2room "A" "a1" 4 = .error e)) := by
  have h1 := (win_transitions_to_finished_and_freezes).1 C2gs "A" "a1" 1 C2r (by rfl) (by rfl)
  have h2 := (win_transitions_to_finished_and_freezes).2 C2room
    { gamePhase := .finished, pieces := [], currentTurn := 0, winner := some "A", lastDiceRoll := none }
    "A" "a1" 4 4 (by rfl) (by rfl)
  exact ⟨⟨by rfl, by rfl, h1⟩, h2⟩

/-- No color's start cell is the home sentinel. -/
theorem getStartPosition_ne_home (c : Color) : getStartPosition c ≠ HOME_POSITION := by
  cases c <;> decide

/-- `getNextPosition` from home: a 6 reaches the start cell, anything
else stays home. -/
theorem getNextPosition_home (roll : Int) (c : Color) :
    getNextPosition HOME_POSITION roll c =
      if roll = 6 then getStartPosition c else HOME_POSITION := by
  unfold getNextPosition
  rw [if_pos rfl]

/-- Validity characterization for a piece at home: legal exactly when
the roll is 6 and no other same-color piece sits on the start cell. -/
theorem isValidMove_home_iff (piece : Piece) (roll : Int) (gs : GameState) (c : Color)
    (hhome : piece.position = HOME_POSITION) :
    (isValidMove piece roll gs c = true ↔
      (roll = 6 ∧ ¬ ∃ q ∈ gs.pieces, q.position = getStartPosition c ∧
        q.playerColor = c ∧ q.id ≠ piece.id)) := by
  unfold isValidMove
  rw [hhome, getNextPosition_home]
  by_cases h6 : roll = 6
  · subst h6
    rw [if_neg (by simp)]
    rw [if_pos rfl]
    rw [if_neg (getStartPosition_ne_home c)]
    by_cases hany : gs.pieces.any (fun p =>
        decide (p.position = getStartPosition c ∧ p.playerColor = c ∧ p.id ≠ piece.id)) = true
    · rw [if_pos hany]
      simp only [List.any_eq_true, decide_eq_true_eq] at hany
      simp [hany]
    · rw [if_neg hany]
      simp only [List.any_eq_true, decide_eq_true_eq] at hany
      simp [hany]
  · rw [if_pos ⟨rfl, h6⟩]
    simp [h6]

/-- Game state for C4's counterexample: red's piece a1 is at home while
red's piece a2 already occupies red's start cell 0. -/
def C4gs : GameState :=
  { players := [mkPlayer "A" .red],
    pieces := [mkPiece "a1" "A" .red (-1), mkPiece "a2" "A" .red 0],
    currentTurn := 0, gamePhase := .playing, winner := none, lastDiceRoll := none }

/-- Counterexample to C4 as stated: with a roll of 6 the home piece a1
gets no move in `getValidMoves`, because its own color already occupies
the start cell — the claimed "iff the roll is 6" fails left-to-right. -/
theorem home_piece_six_not_sufficient_cex :
    (mkPiece "a1" "A" .red (-1)) ∈ C4gs.pieces ∧
    (mkPiece "a1" "A" .red (-1)).position = HOME_POSITION ∧
    (∀ m ∈ getValidMoves C4gs "A" 6, m.pieceId ≠ "a1") := by decide

/-- C4 (amended): for a piece of the player at home, `legalMoves`
contains a move for it iff the roll is 6 and no other same-color piece
occupies that color's start cell; any move it does contain for that
piece targets exactly the start cell. (Piece ids are assumed distinct,
as in every state the game constructs.) -/
theorem home_piece_moves_iff_start_free (gs : GameState) (playerId : String)
    (player : Player) (piece : Piece) (roll : Int)
    (hfind : gs.players.find? (fun p => p.id == playerId) = some player)
    (hmem : piece ∈ gs.pieces) (hown : piece.playerId = playerId)
    (hhome : piece.position = HOME_POSITION)
    (hnodup : (gs.pieces.map (fun p => p.id)).Nodup) :
    ((∃ m ∈ getValidMoves gs playerId roll, m.pieceId = piece.id) ↔
      (roll = 6 ∧ ¬ ∃ q ∈ gs.pieces, q.position = getStartPosition player.color ∧
        q.playerColor = player.color ∧ q.id ≠ piece.id)) ∧
    (∀ m ∈ getValidMoves gs playerId roll, m.pieceId = piece.id →
      m.toPosition = getStartPosition player.color) := by
  have hval := isValidMove_home_iff piece roll gs player.color hhome
  have extract : ∀ m, m ∈ getValidMoves gs playerId roll → m.pieceId = piece.id →
      isValidMove piece roll gs player.color = true ∧
      m.toPosition = getNextPosition piece.position roll player.color := by
    intro m hm hmid
    unfold getValidMoves at hm
    rw [hfind] at hm
    obtain ⟨q, hqf, hfq⟩ := List.mem_filterMap.mp hm
    have hq_pieces : q ∈ gs.pieces := (List.mem_filter.mp hqf).1
    by_cases hv : isValidMove q roll gs player.color = true
    · rw [if_pos hv] at hfq
      injection hfq with hfq
      subst hfq
      have hqid : q.id = piece.id := hmid
      have hqeq : q = piece :=
        List.inj_on_of_nodup_map hnodup hq_pieces hmem hqid
      subst hqeq
      exact ⟨hv, rfl⟩
    · rw [if_neg hv] at hfq
      exact absurd hfq (by simp)
  constructor
  · constructor
    · rintro ⟨m, hm, hmid⟩
      exact hval.mp (extract m hm hmid).1
    · rintro ⟨h6, hnoblock⟩
      have hv : isValidMove piece roll gs player.color = true :=
        hval.mpr ⟨h6, hnoblock⟩
      unfold getValidMoves
      rw [hfind]
      exact ⟨_, List.mem_filterMap.mpr ⟨piece,
        List.mem_filter.mpr ⟨hmem, by simp [hown]⟩, if_pos hv⟩, rfl⟩
  · intro m hm hmid
    obtain ⟨hv, hto⟩ := extract m hm hmid
    have h6 : roll = 6 := (hval.mp hv).1
    rw [hto, hhome, getNextPosition_home, if_pos h6]

/-- Game state for C4's witness: a single red piece at home, start cell
free. -/
def C4gsW : GameState :=
  { players := [mkPlayer "A" .red],
    pieces := [mkPiece "a1" "A" .red (-1)],
    currentTurn := 0, gamePhase := .playing, winner := none, lastDiceRoll := none }

/-- Witness for C4 (amended): with the start cell free and a roll of 6,
the home piece receives exactly a move onto red's start cell 0. -/
theorem home_piece_moves_iff_start_free_witness :
    ∃ m ∈ getValidMoves C4gsW "A" 6, m.pieceId = "a1" :=
  (home_piece_moves_iff_start_free C4gsW "A" (mkPlayer "A" .red)
    (mkPiece "a1" "A" .red (-1)) 6 (by decide) (by decide) (by decide) (by decide)
    (by decide)).1.mpr ⟨rfl, by decide⟩

/-- A connected member yields a connected index. -/
theorem connectedAt_exists (players : List Player)
    (h : ∃ p ∈ players, p.connected = true) :
    ∃ i, i < players.length ∧ connectedAt players i = true := by
  obtain ⟨p, hp, hc⟩ := h
  obtain ⟨n, hn⟩ := List.mem_iff_get.mp hp
  refine ⟨n, n.isLt, ?_⟩
  unfold connectedAt
  rw [List.get?_eq_get n.isLt]
  show (players.get n).connected = true
  rw [hn]
  exact hc

/-- The bounded skip loop stops at the first connected index in the
cyclic scan, provided one exists within the allowed attempts. -/
theorem skipLoop_finds (players : List Player) :
    ∀ (remaining start : Nat), start < players.length →
      (∃ j, j < remaining ∧ connectedAt players ((start + j) % players.length) = true) →
      ∃ j, j < remaining ∧ connectedAt players ((start + j) % players.length) = true ∧
        skipLoop players start remaining = (start + j) % players.length ∧
        ∀ i, i < j → connectedAt players ((start + i) % players.length) = false := by
  intro remaining
  induction remaining with
  | zero =>
    intro start _ h
    obtain ⟨j, hj, _⟩ := h
    omega
  | succ r ih =>
    intro start hstart h
    have hlen : 0 < players.length := Nat.lt_of_le_of_lt (Nat.zero_le _) hstart
    by_cases hc : connectedAt players start = true
    · refine ⟨0, Nat.succ_pos r, ?_, ?_, fun i hi => absurd hi (Nat.not_lt_zero i)⟩
      · rw [Nat.add_zero, Nat.mod_eq_of_lt hstart]
        exact hc
      · simp only [skipLoop, hc, if_true]
        rw [Nat.add_zero, Nat.mod_eq_of_lt hstart]
    · obtain ⟨j, hj, hconn⟩ := h
      have hj0 : j ≠ 0 := by
        intro h0
        subst h0
        rw [Nat.add_zero, Nat.mod_eq_of_lt hstart] at hconn
        exact hc hconn
      have hstart2 : (start + 1) % players.length < players.length :=
        Nat.mod_lt _ hlen
      have hshift : ∀ k, ((start + 1) % players.length + k) % players.length =
          (start + (k + 1)) % players.length := by
        intro k
        rw [Nat.mod_add_mod]
        congr 1
        omega
      obtain ⟨j2, hj2, hconn2, heq2, hmin2⟩ := ih ((start + 1) % players.length) hstart2
        ⟨j - 1, by omega, by
          rw [hshift, show j - 1 + 1 = j by omega]
          exact hconn⟩
      refine ⟨j2 + 1, by omega, ?_, ?_, ?_⟩
      · rw [← hshift]
        exact hconn2
      · have hstep : skipLoop players start (r + 1) =
            skipLoop players ((start + 1) % players.length) r := by
          simp only [skipLoop, hc, if_false, Bool.false_eq_true]
        rw [hstep, heq2, hshift]
      · intro i hi
        cases i with
        | zero =>
          rw [Nat.add_zero, Nat.mod_eq_of_lt hstart]
          simpa using hc
        | succ i2 =>
          rw [← hshift]
          exact hmin2 i2 (by omega)

/-- The shared scan characterization of `getNextPlayerTurn`: the result
is the first connected index after the current one in cyclic join order. -/
theorem getNextPlayerTurn_finds (players : List Player) (currentTurn : Nat)
    (hex : ∃ p ∈ players, p.connected = true) :
    ∃ k, 1 ≤ k ∧ k ≤ players.length ∧
      getNextPlayerTurn currentTurn players true =
        (currentTurn + k) % players.length ∧
      connectedAt players ((currentTurn + k) % players.length) = true ∧
      ∀ j, 1 ≤ j → j < k →
        connectedAt players ((currentTurn + j) % players.length) = false := by
  obtain ⟨i0, hi0, hci0⟩ := connectedAt_exists players hex
  have hlen : 0 < players.length := Nat.lt_of_le_of_lt (Nat.zero_le _) hi0
  have hstart : (currentTurn + 1) % players.length < players.length :=
    Nat.mod_lt _ hlen
  have hshift : ∀ k, ((currentTurn + 1) % players.length + k) % players.length =
      (currentTurn + (k + 1)) % players.length := by
    intro k
    rw [Nat.mod_add_mod]
    congr 1
    omega
  have hcover : ∃ j, j < players.length ∧
      connectedAt players (((currentTurn + 1) % players.length + j) % players.length) = true := by
    refine ⟨(players.length + i0 - (currentTurn + 1) % players.length) % players.length,
      Nat.mod_lt _ hlen, ?_⟩
    have h1 : ((currentTurn + 1) % players.length +
        (players.length + i0 - (currentTurn + 1) % players.length) % players.length) %
          players.length = i0 := by
      rw [Nat.add_mod_mod,
        Nat.add_sub_cancel'
          (show (currentTurn + 1) % players.length ≤ players.length + i0 by omega),
        Nat.add_comm players.length i0, Nat.add_mod_right, Nat.mod_eq_of_lt hi0]
    rw [h1]
    exact hci0
  obtain ⟨j0, hj0, hconn0, heq0, hmin0⟩ :=
    skipLoop_finds players players.length ((currentTurn + 1) % players.length) hstart hcover
  refine ⟨j0 + 1, by omega, by omega, ?_, ?_, ?_⟩
  · show (if true = true then skipLoop players ((currentTurn + 1) % players.length)
      players.length else (currentTurn + 1) % players.length) = _
    rw [if_pos rfl, heq0, hshift]
  · rw [← hshift]
    exact hconn0
  · intro j hj1 hjk
    have := hmin0 (j - 1) (by omega)
    rw [hshift, show j - 1 + 1 = j by omega] at this
    exact this

/-- C6: with at least one connected player, `getNextPlayerTurn` returns
the next connected index in cyclic join order (skipping disconnected
players); and when the current player is the sole connected one, the
turn stays with them. -/
theorem getNextPlayerTurn_spec (players : List Player) (currentTurn : Nat) :
    ((∃ p ∈ players, p.connected = true) →
      ∃ k, 1 ≤ k ∧ k ≤ players.length ∧
        getNextPlayerTurn currentTurn players true =
          (currentTurn + k) % players.length ∧
        connectedAt players ((currentTurn + k) % players.length) = true ∧
        ∀ j, 1 ≤ j → j < k →
          connectedAt players ((currentTurn + j) % players.length) = false) ∧
    (currentTurn < players.length → connectedAt players currentTurn = true →
      (∀ i, i < players.length → i ≠ currentTurn → connectedAt players i = false) →
      getNextPlayerTurn currentTurn players true = currentTurn) := by
  refine ⟨getNextPlayerTurn_finds players currentTurn, ?_⟩
  intro hlt hconn hothers
  have hlen : 0 < players.length := Nat.lt_of_le_of_lt (Nat.zero_le _) hlt
  have hex : ∃ p ∈ players, p.connected = true := by
    have hget : players.get? currentTurn = some (players.get ⟨currentTurn, hlt⟩) :=
      List.get?_eq_get hlt
    refine ⟨players.get ⟨currentTurn, hlt⟩, List.get_mem players currentTurn hlt, ?_⟩
    unfold connectedAt at hconn
    rw [hget] at hconn
    simpa using hconn
  obtain ⟨k, _, _, heq, hconnk, _⟩ := getNextPlayerTurn_finds players currentTurn hex
  have hmod : (currentTurn + k) % players.length < players.length := Nat.mod_lt _ hlen
  by_cases hceq : (currentTurn + k) % players.length = currentTurn
  · rw [heq, hceq]
  · exact absurd hconnk (by rw [hothers _ hmod hceq]; simp)

/-- Player list for C6's witness: only the first player is connected. -/
def C6players : List Player :=
  [mkPlayer "A" .red,
   { mkPlayer "B" .blue with connected := false },
   { mkPlayer "C" .green with connected := false }]

/-- Witness for C6: with both other players disconnected, the turn does
not advance away from the sole connected player. -/
theorem getNextPlayerTurn_spec_witness :
    getNextPlayerTurn 0 C6players true = 0 :=
  (getNextPlayerTurn_spec C6players 0).2 (by decide) (by decide) (by decide)

theorem sortInsertDesc_length (x : Move × ℚ) (l : List (Move × ℚ)) :
    (sortInsertDesc x l).length = l.length + 1 := by
  induction l with
  | nil => rfl
  | cons y ys ih =>
    by_cases h : y.2 ≤ x.2
    · simp [sortInsertDesc, h]
    · simp [sortInsertDesc, h, ih]

theorem sortByScoreDesc_length (l : List (Move × ℚ)) :
    (sortByScoreDesc l).length = l.length := by
  induction l with
  | nil => rfl
  | cons x xs ih => simp [sortByScoreDesc, sortInsertDesc_length, ih]

theorem filterMap_eq_singleton_of {α β : Type} (f : α → Option β) (l : List α)
    (q : α) (m : β) (hnd : l.Nodup) (hq : q ∈ l) (hfq : f q = some m)
    (hothers : ∀ p ∈ l, p ≠ q → f p = none) :
    l.filterMap f = [m] := by
  induction l with
  | nil => simp at hq
  | cons a as ih =>
    rw [List.nodup_cons] at hnd
    rcases List.mem_cons.mp hq with rfl | hq2
    · rw [List.filterMap_cons_some hfq]
      have hnil : as.filterMap f = [] := List.filterMap_eq_nil_iff.mpr
        (fun p hp => hothers p (List.mem_cons_of_mem _ hp)
          (fun hpq => hnd.1 (hpq ▸ hp)))
      rw [hnil]
    · have ha : f a = none := hothers a (List.mem_cons_self a as)
        (fun haq => hnd.1 (haq ▸ hq2))
      rw [List.filterMap_cons_none ha]
      exact ih hnd.2 hq2 (fun p hp hpq => hothers p (List.mem_cons_of_mem _ hp) hpq)

/-- A piece already on the terminal finish cell has no legal move for
any positive roll: its step would overshoot, so `getNextPosition` keeps
it in place and the unchanged position fails validation. -/
theorem isValidMove_at_finish_end (piece : Piece) (steps : Int) (gs : GameState)
    (c : Color) (hpos : piece.position = FINISH_END) (hsteps : 1 ≤ steps) :
    isValidMove piece steps gs c = false := by
  have hnp : getNextPosition piece.position steps c = piece.position := by
    unfold getNextPosition
    rw [hpos]
    simp only [FINISH_END, FINISH_START, HOME_POSITION]
    rw [if_neg (by norm_num), if_pos (by norm_num), if_neg (by omega)]
  unfold isValidMove
  rw [if_neg (by rw [hpos]; simp only [FINISH_END, HOME_POSITION]; norm_num)]
  rw [hnp, if_pos rfl]

/-- C7: `selectAIMove` answers null exactly when the legal move set is
empty (for in-range random draws), and whenever the legal set contains a
move after which every piece of the player stands on the terminal cell,
that winning move is returned regardless of difficulty and randomness —
the winner's other pieces are all terminal and hence immobile, so the
winning move is the unique legal move. -/
theorem selectAIMove_none_iff_and_winning (gs : GameState) (playerId : String)
    (player : Player) (diceValue : Int) (difficulty : Difficulty) (rng : ℕ → ℚ)
    (hfind : gs.players.find? (fun p => p.id == playerId) = some player)
    (hrng : ∀ i, 0 ≤ rng i ∧ rng i < 1)
    (hdice : 1 ≤ diceValue)
    (hnodup : (gs.pieces.map (fun p => p.id)).Nodup) :
    (selectAIMove gs playerId diceValue difficulty rng = .ok none ↔
      getValidMoves gs playerId diceValue = []) ∧
    (∀ m ∈ getValidMoves gs playerId diceValue,
      (∀ p ∈ gs.pieces, p.playerId = playerId →
        (if p.id = m.pieceId then m.toPosition else p.position) = FINISH_END) →
      selectAIMove gs playerId diceValue difficulty rng = .ok (some m)) := by
  have key : getValidMoves gs playerId diceValue ≠ [] →
      ∃ mm, selectAIMove gs playerId diceValue difficulty rng = .ok (some mm) := by
    intro hne
    unfold selectAIMove
    rw [hfind]
    dsimp only
    set vm := getValidMoves gs playerId diceValue with hvm
    by_cases h1 : vm.length = 0
    · exact absurd (List.length_eq_zero.mp h1) hne
    rw [if_neg h1]
    by_cases h2 : vm.length = 1
    · rw [if_pos h2]
      cases hvme : vm with
      | nil => exact absurd hvme hne
      | cons a l => exact ⟨a, rfl⟩
    · rw [if_neg h2]
      set ev := vm.enum.map (fun im =>
        (im.2, evaluateMove im.2 gs playerId player.color difficulty (rng im.1))) with hev
      have hevlen : ev.length = vm.length := by
        rw [hev, List.length_map, List.enum_length]
      have hslen : (sortByScoreDesc ev).length = vm.length := by
        rw [sortByScoreDesc_length, hevlen]
      by_cases h3 : difficulty = .easy ∧ rng vm.length < 3 / 10
      · rw [if_pos h3]
        obtain ⟨hr0, hr1⟩ := hrng (vm.length + 1)
        have hmin1 : 1 ≤ min 3 ev.length := by rw [hevlen]; omega
        have hminpos : (0:ℚ) < ((min 3 ev.length : ℕ) : ℚ) := by exact_mod_cast hmin1
        have hqlt : rng (vm.length + 1) * ((min 3 ev.length : ℕ) : ℚ) <
            ((min 3 ev.length : ℕ) : ℚ) := by
          calc rng (vm.length + 1) * ((min 3 ev.length : ℕ) : ℚ)
              < 1 * ((min 3 ev.length : ℕ) : ℚ) :=
                mul_lt_mul_of_pos_right hr1 hminpos
            _ = ((min 3 ev.length : ℕ) : ℚ) := one_mul _
        have hfl : (⌊rng (vm.length + 1) * ((min 3 ev.length : ℕ) : ℚ)⌋).toNat <
            min 3 ev.length := by
          have h5 : ⌊rng (vm.length + 1) * ((min 3 ev.length : ℕ) : ℚ)⌋ <
              ((min 3 ev.length : ℕ) : ℤ) := Int.floor_lt.mpr (by exact_mod_cast hqlt)
          have h6 : 0 ≤ ⌊rng (vm.length + 1) * ((min 3 ev.length : ℕ) : ℚ)⌋ :=
            Int.floor_nonneg.mpr (mul_nonneg hr0 (le_of_lt hminpos))
          omega
        have hidx : (⌊rng (vm.length + 1) * ((min 3 ev.length : ℕ) : ℚ)⌋).toNat <
            (sortByScoreDesc ev).length := by
          rw [hslen]
          have h7 : min 3 ev.length ≤ ev.length := Nat.min_le_right _ _
          omega
        refine ⟨((sortByScoreDesc ev).get ⟨_, hidx⟩).1, ?_⟩
        rw [List.get?_eq_get hidx]
        rfl
      · rw [if_neg h3]
        cases hs : sortByScoreDesc ev with
        | nil =>
          rw [hs] at hslen
          simp at hslen
          omega
        | cons s ss => exact ⟨s.1, rfl⟩
  constructor
  · constructor
    · intro hnone
      by_contra hne
      obtain ⟨mm, hmm⟩ := key hne
      rw [hmm] at hnone
      simp at hnone
    · intro hempty
      unfold selectAIMove
      rw [hfind]
      dsimp only
      rw [if_pos (by rw [hempty]; rfl)]
  · intro m hm hwin
    have hm2 := hm
    unfold getValidMoves at hm2
    rw [hfind] at hm2
    obtain ⟨q, hqf, hfq⟩ := List.mem_filterMap.mp hm2
    obtain ⟨hq_pieces, hq_pid⟩ := List.mem_filter.mp hqf
    by_cases hv : isValidMove q diceValue gs player.color = true
    · rw [if_pos hv] at hfq
      injection hfq with hfq
      subst hfq
      have hq_pid2 : q.playerId = playerId := by simpa using hq_pid
      have hsingle : getValidMoves gs playerId diceValue =
          [{ pieceId := q.id, fromPosition := q.position,
             toPosition := getNextPosition q.position diceValue player.color,
             willCutPieces := (getPiecesCutByMove
               (getNextPosition q.position diceValue player.color) player.color gs).length > 0,
             cutPieces := getPiecesCutByMove
               (getNextPosition q.position diceValue player.color) player.color gs }] := by
        unfold getValidMoves
        rw [hfind]
        refine filterMap_eq_singleton_of _ _ q _
          ((hnodup.of_map).filter _) hqf (if_pos hv) ?_
        intro p hp hpq
        obtain ⟨hp_pieces, hp_pid⟩ := List.mem_filter.mp hp
        have hp_pid2 : p.playerId = playerId := by simpa using hp_pid
        have hpid_ne : p.id ≠ q.id := by
          intro hid
          exact hpq (List.inj_on_of_nodup_map hnodup hp_pieces hq_pieces hid)
        have hp57 : p.position = FINISH_END := by
          have := hwin p hp_pieces hp_pid2
          rw [if_neg hpid_ne] at this
          exact this
        rw [if_neg (by rw [isValidMove_at_finish_end p diceValue gs player.color hp57 hdice]; simp)]
      unfold selectAIMove
      rw [hfind]
      dsimp only
      rw [hsingle]
      norm_num
    · rw [if_neg hv] at hfq
      exact absurd hfq (by simp)

/-- Game state for C7's witness: player A owns a single piece one step
short of the terminal cell, so the winning move is legal and forced. -/
def C7gs : GameState :=
  { players := [mkPlayer "A" .red, mkPlayer "B" .blue],
    pieces := [mkPiece "a1" "A" .red 56],
    currentTurn := 0, gamePhase := .playing, winner := none, lastDiceRoll := none }

/-- The winning move of C7's witness. -/
def C7move : Move :=
  { pieceId := "a1", fromPosition := 56, toPosition := 57,
    willCutPieces := false, cutPieces := [] }

/-- Witness for C7: on the easy tier with an arbitrary in-range random
stream the winning move is selected. -/
theorem selectAIMove_none_iff_and_winning_witness :
    selectAIMove C7gs "A" 1 .easy (fun _ => 0) = .ok (some C7move) :=
  (selectAIMove_none_iff_and_winning C7gs "A" (mkPlayer "A" .red) 1 .easy (fun _ => 0)
    (by decide) (fun _ => ⟨le_refl 0, by norm_num⟩) (by decide) (by decide)).2
    C7move (by decide) (by decide)

/-- C8: a `joinRoom` intent for a player identity already attached to a
different live socket is rejected with an error and leaves the room —
players, their connections, and the stored game state — untouched; for
an existing identity with no live connection the handler re-attaches the
player in place, creating no duplicate. (The room is assumed to carry
its `gameStateData`, as every room built by this server does.) -/
theorem joinRoom_duplicate_rejected_reattach_ok (room : ServerRoom)
    (playerId socketId : String) (player : Player) (g : ServerGameStateData)
    (hgsd : room.gameStateData = some g)
    (hfind : room.players.find? (fun p => p.id == playerId || p.uuid == playerId) = some player) :
    ((player.connected = true ∧ ∃ s, player.socketId = some s ∧ s ≠ socketId) →
      joinRoom room playerId socketId =
        (room, .error "Player already connected from another session")) ∧
    ((player.connected = true → ∀ s, player.socketId = some s → s = socketId) →
      (joinRoom room playerId socketId).2 = .ok () ∧
      (joinRoom room playerId socketId).1.players.length = room.players.length ∧
      (joinRoom room playerId socketId).1.gameStateData = room.gameStateData ∧
      ∃ p2 ∈ (joinRoom room playerId socketId).1.players,
        (p2.id = playerId ∨ p2.uuid = playerId) ∧
        p2.connected = true ∧ p2.socketId = some socketId) := by
  have hpred : (player.id == playerId || player.uuid == playerId) = true := by
    have h := List.find?_some hfind
    simpa using h
  constructor
  · rintro ⟨hconn, s, hsock, hne⟩
    unfold joinRoom
    rw [hgsd]
    dsimp only
    rw [hfind]
    dsimp only
    rw [if_pos (by rw [hconn, hsock]; simpa using hne)]
  · intro hno
    have hcond : (player.connected && (match player.socketId with
        | some s => s != socketId
        | none => false)) = false := by
      cases hc : player.connected with
      | false => rfl
      | true =>
        cases hs : player.socketId with
        | none => rfl
        | some s =>
          have : s = socketId := hno hc s hs
          simp [this]
    unfold joinRoom
    rw [hgsd]
    dsimp only
    rw [hfind]
    dsimp only
    rw [if_neg (by rw [hcond]; simp)]
    refine ⟨rfl, updateFirst_length _ _ _, hgsd, ?_⟩
    refine ⟨{ player with connected := true, socketId := some socketId },
      updateFirst_mem_of_find? _ _ _ _ hfind, ?_, rfl, rfl⟩
    simpa using hpred

/-- Room for C8's witness: player A is live on socket "s1", player B is
present but disconnected. -/
def C8room : ServerRoom :=
  { gameState := .waiting, maxPlayers := 4,
    players := [{ mkPlayer "A" .red with socketId := some "s1" },
                { mkPlayer "B" .blue with connected := false }],
    gameStateData := some { gamePhase := .waiting, pieces := [], currentTurn := 0,
                            winner := none, lastDiceRoll := none } }

/-- Witness for C8: a second connection for A is rejected with the room
unchanged, while a reconnect for the disconnected B re-attaches B
without adding a player. -/
theorem joinRoom_duplicate_rejected_reattach_ok_witness :
    (joinRoom C8room "A" "s2" =
      (C8room, .error "Player already connected from another session")) ∧
    ((joinRoom C8room "B" "s3").2 = .ok () ∧
      (joinRoom C8room "B" "s3").1.players.length = C8room.players.length ∧
      ∃ p2 ∈ (joinRoom C8room "B" "s3").1.players,
        (p2.id = "B" ∨ p2.uuid = "B") ∧ p2.connected = true ∧ p2.socketId = some "s3") := by
  have h1 := (joinRoom_duplicate_rejected_reattach_ok C8room "A" "s2"
    ({ mkPlayer "A" .red with socketId := some "s1" })
    { gamePhase := .waiting, pieces := [], currentTurn := 0, winner := none, lastDiceRoll := none }
    (by rfl) (by rfl)).1 ⟨rfl, "s1", rfl, by decide⟩
  have h2 := (joinRoom_duplicate_rejected_reattach_ok C8room "B" "s3"
    ({ mkPlayer "B" .blue with connected := false })
    { gamePhase := .waiting, pieces := [], currentTurn := 0, winner := none, lastDiceRoll := none }
    (by rfl) (by rfl)).2 (fun hc _ _ => absurd hc (by decide))
  exact ⟨h1, h2.1, h2.2.1, h2.2.2.2⟩

/-- Steps taken from `c`'s start cell to reach a path position, exactly
as `getNextPosition` measures them. -/
def relSteps (position : Int) (c : Color) : Int :=
  if position ≥ getStartPosition c then position - getStartPosition c
  else (BOARD_SIZE - getStartPosition c) + position

/-- The claimed per-piece position range: home, a path cell at most 50
steps from the piece's own color's start, or a finish cell. -/
def posInvariant (p : Piece) : Prop :=
  p.position = HOME_POSITION ∨
  (0 ≤ p.position ∧ p.position < BOARD_SIZE ∧ relSteps p.position p.playerColor ≤ 50) ∨
  (FINISH_START ≤ p.position ∧ p.position ≤ FINISH_END)

instance (p : Piece) : Decidable (posInvariant p) := by
  unfold posInvariant
  infer_instance

/-- Game state for C9's counterexample: a blue piece on cell 6 (45 steps
along blue's circuit), with red player A present. -/
def C9gs : GameState :=
  { players := [mkPlayer "A" .red, mkPlayer "B" .blue],
    pieces := [mkPiece "b1" "B" .blue 6],
    currentTurn := 0, gamePhase := .playing, winner := none, lastDiceRoll := none }

/-- The result of C9's counterexample move (computable extraction). -/
def C9res : MoveResult :=
  match executeMove C9gs "A" "b1" 6 with
  | .ok r => r
  | .error _ => { gameState := C9gs, cutPieces := [], movedPiece := mkPiece "b1" "B" .blue 6 }

/-- Counterexample to C9 as stated: `executeMove` checks no ownership,
so red player A may move blue's piece using red's geometry; the blue
piece lands on cell 12 — 51 steps from blue's start — leaving the
claimed range even though the input state satisfied it. -/
theorem executeMove_preserves_bounds_cex :
    (∀ p ∈ C9gs.pieces, posInvariant p) ∧
    executeMove C9gs "A" "b1" 6 = .ok C9res ∧
    ¬ (∀ p ∈ C9res.gameState.pieces, posInvariant p) :=
  ⟨by decide, by rfl, by decide⟩

/-- One step of board movement stays inside the claimed range for rolls
1..6, measured with the color used by the computation. -/
theorem getNextPosition_preserves (pos steps : Int) (c : Color)
    (h1 : 1 ≤ steps) (h6 : steps ≤ 6)
    (hpos : pos = HOME_POSITION ∨
      (0 ≤ pos ∧ pos < BOARD_SIZE ∧ relSteps pos c ≤ 50) ∨
      (FINISH_START ≤ pos ∧ pos ≤ FINISH_END)) :
    getNextPosition pos steps c = HOME_POSITION ∨
    (0 ≤ getNextPosition pos steps c ∧ getNextPosition pos steps c < BOARD_SIZE ∧
      relSteps (getNextPosition pos steps c) c ≤ 50) ∨
    (FINISH_START ≤ getNextPosition pos steps c ∧
      getNextPosition pos steps c ≤ FINISH_END) := by
  cases c <;>
  · simp only [getNextPosition, relSteps, getStartPosition, BOARD_SIZE, HOME_POSITION,
      FINISH_START, FINISH_END] at *
    split_ifs at * <;> omega

/-- A finish-area piece whose step would overshoot the terminal cell is
kept in place by `getNextPosition`. -/
theorem getNextPosition_finish_stay (pos steps : Int) (c : Color)
    (hge : FINISH_START ≤ pos) (hover : FINISH_END < pos + steps) :
    getNextPosition pos steps c = pos := by
  unfold getNextPosition
  rw [if_neg (by simp only [FINISH_START] at hge; simp only [HOME_POSITION]; omega)]
  rw [if_pos hge]
  rw [if_neg (by omega)]

/-- C9 (amended): when the moved piece belongs to the moving player's
color and piece ids are distinct — both true of every state the game
builds, and the former checked by `executeMove`'s callers — a
successful `executeMove` with a roll 1..6 preserves the claimed
per-piece position range, so no position ever exceeds the terminal cell
57; and a finish-area piece whose step would overshoot the terminal
cell has no valid move, so it is left in place rather than moved. -/
theorem executeMove_preserves_position_bounds (gs : GameState)
    (playerId pieceId : String) (steps : Int) (player : Player) (piece : Piece)
    (hfindPl : gs.players.find? (fun p => p.id == playerId) = some player)
    (hfindPc : gs.pieces.find? (fun p => p.id == pieceId) = some piece)
    (hown : piece.playerColor = player.color)
    (h1 : 1 ≤ steps) (h6 : steps ≤ 6)
    (hnodup : (gs.pieces.map (fun p => p.id)).Nodup)
    (hinv : ∀ p ∈ gs.pieces, posInvariant p) :
    (∀ res, executeMove gs playerId pieceId steps = .ok res →
      (∀ p ∈ res.gameState.pieces, posInvariant p) ∧
      (∀ p ∈ res.gameState.pieces, p.position ≤ FINISH_END)) ∧
    (FINISH_START ≤ piece.position → FINISH_END < piece.position + steps →
      isValidMove piece steps gs player.color = false) := by
  have hpiece_mem : piece ∈ gs.pieces := List.mem_of_find?_eq_some hfindPc
  have hpid : piece.id = pieceId := by
    have h := List.find?_some hfindPc
    simpa using h
  constructor
  · intro res hok
    obtain ⟨hvalid, hcut, _, _, hpieces⟩ := executeMove_ok_elim gs playerId pieceId steps
      player piece res hfindPc hfindPl hok
    have hpinv := hinv piece hpiece_mem
    have hnpinv := getNextPosition_preserves piece.position steps player.color h1 h6
      (by unfold posInvariant at hpinv; rw [hown] at hpinv; exact hpinv)
    have hmain : ∀ p ∈ res.gameState.pieces, posInvariant p := by
      intro p hp
      rw [hpieces] at hp
      rcases updateFirst_mem _ _ _ _ hp with hp1 | ⟨y, hy, hpredy, hpy⟩
      · rcases cutFold_mem _ _ _ hp1 with hp2 | ⟨z, _, hpz⟩
        · exact hinv p hp2
        · rw [hpz]
          exact Or.inl rfl
      · have hycolor : y.playerColor = player.color := by
          rcases cutFold_mem _ _ _ hy with hy2 | ⟨z, hz, hyz⟩
          · have hyid : y.id = pieceId := by simpa using hpredy
            have hyeq : y = piece :=
              List.inj_on_of_nodup_map hnodup hy2 hpiece_mem (by rw [hyid, hpid])
            rw [hyeq, hown]
          · have hzid : z.id = pieceId := by
              have : y.id = z.id := by rw [hyz]
              rw [← this]
              simpa using hpredy
            have hzeq : z = piece :=
              List.inj_on_of_nodup_map hnodup hz hpiece_mem (by rw [hzid, hpid])
            rw [hyz, hzeq]
            exact hown
        rw [hpy]
        unfold posInvariant movePieceUpdate
        simp only
        rw [hycolor]
        exact hnpinv
    refine ⟨hmain, ?_⟩
    intro p hp
    rcases hmain p hp with h | ⟨_, h2, _⟩ | ⟨_, h3⟩ <;>
      simp only [HOME_POSITION, BOARD_SIZE, FINISH_END] at * <;> omega
  · intro hge hover
    unfold isValidMove
    rw [if_neg (by
      rintro ⟨hh, _⟩
      rw [hh] at hge
      simp only [FINISH_START, HOME_POSITION] at hge
      omega)]
    rw [getNextPosition_finish_stay piece.position steps player.color hge hover]
    rw [if_pos rfl]

/-- Game state for C9's witness: red's own piece 50 steps along, about
to enter the home stretch with a 6. -/
def C9gsW : GameState :=
  { players := [mkPlayer "A" .red, mkPlayer "B" .blue],
    pieces := [mkPiece "a1" "A" .red 50],
    currentTurn := 0, gamePhase := .playing, winner := none, lastDiceRoll := none }

/-- The result of C9's witness move (computable extraction). -/
def C9resW : MoveResult :=
  match executeMove C9gsW "A" "a1" 6 with
  | .ok r => r
  | .error _ => { gameState := C9gsW, cutPieces := [], movedPiece := mkPiece "a1" "A" .red 50 }

/-- Game state for C9's witness of the overshoot clause: red's piece on
finish cell 55, where a roll of 6 would pass the terminal cell. -/
def C9gsW2 : GameState :=
  { players := [mkPlayer "A" .red, mkPlayer "B" .blue],
    pieces := [mkPiece "a1" "A" .red 55],
    currentTurn := 0, gamePhase := .playing, winner := none, lastDiceRoll := none }

/-- Witness for C9 (amended): the legal entry into the home stretch
keeps every position in range and below the terminal cell, and the
overshooting finish-area move is invalid. -/
theorem executeMove_preserves_position_bounds_witness :
    ((∀ p ∈ C9resW.gameState.pieces, posInvariant p) ∧
      (∀ p ∈ C9resW.gameState.pieces, p.position ≤ FINISH_END)) ∧
    isValidMove (mkPiece "a1" "A" .red 55) 6 C9gsW2 (mkPlayer "A" .red).color = false := by
  have h1 := (executeMove_preserves_position_bounds C9gsW "A" "a1" 6
    (mkPlayer "A" .red) (mkPiece "a1" "A" .red 50) (by rfl) (by rfl) (by rfl)
    (by norm_num) (by norm_num) (by decide) (by decide)).1 C9resW (by rfl)
  have h2 := (executeMove_preserves_position_bounds C9gsW2 "A" "a1" 6
    (mkPlayer "A" .red) (mkPiece "a1" "A" .red 55) (by rfl) (by rfl) (by rfl)
    (by norm_num) (by norm_num) (by decide) (by decide)).2
    (by decide) (by decide)
  exact ⟨h1, h2⟩

end Ludo
